import Mathlib

/-!
# fxload firmware-download verification

A shallow embedding of the fxload example program of libusbx
(`examples/fxload.c`, which contains two historical entry-point variants of
`main`), together with a model of the EZ-USB download core: the Intel HEX
record parser, the firmware image loader and the chunked download state
machine.  The core is declared in `ezusb.h` and called from `fxload.c`, but
its implementation (`ezusb.c`) is not part of the sources under study, so
those components are modelled from the specification; the definitions
embedding `fxload.c` itself follow the C source line by line.

Theorems at the end settle behavioural properties of the program.
-/

namespace Fxload

/-! ## Intel HEX record parser (HexRecordParser) -/

/-- Value of one hexadecimal digit character, or `none` when the character is
not a hexadecimal digit. -/
def hexVal (c : Char) : Option Nat :=
  if '0' ≤ c ∧ c ≤ '9' then some (c.toNat - '0'.toNat)
  else if 'a' ≤ c ∧ c ≤ 'f' then some (c.toNat - 'a'.toNat + 10)
  else if 'A' ≤ c ∧ c ≤ 'F' then some (c.toNat - 'A'.toNat + 10)
  else none

/-- Decode a run of hexadecimal digit characters, two digits per byte.
Returns `none` on an odd digit count or on a character that is not a
hexadecimal digit. -/
def decodeHexPairs : List Char → Option (List Nat)
  | [] => some []
  | [_] => none
  | c1 :: c2 :: rest =>
    match hexVal c1, hexVal c2, decodeHexPairs rest with
    | some h, some l, some bs => some ((h * 16 + l) :: bs)
    | _, _, _ => none

/-- Record types of Intel HEX records recognised by the parser.  Unknown
record-type tags map to `Other` and are benign no-ops (spec section 4.1). -/
inductive RecordType
  | Data
  | EndOfFile
  | ExtendedSegment
  | ExtendedLinear
  | Other
  deriving DecidableEq, Repr

/-- One parsed Intel HEX record (spec section 3).  The parser rejects any
record with an invalid checksum, so every produced record has a valid one. -/
structure HexRecord where
  recordType : RecordType
  address : Nat
  payload : List Nat
  deriving DecidableEq, Repr

/-- The structural failure causes named by the parser contract
(spec section 4.1).  A non-hexadecimal character is classified together with
an odd digit count, since both corrupt the fixed-width digit layout. -/
inductive MalformedReason
  | missingStartMarker
  | oddDigitCount
  | truncatedLine
  | checksumMismatch
  deriving DecidableEq, Repr

/-- Failure condition of the record parser. -/
inductive ParseError
  | MalformedRecord (why : MalformedReason)
  deriving DecidableEq, Repr

/-- Two's-complement of a byte sum, taken modulo 256 (spec section 4.1). -/
def twosComplement (n : Nat) : Nat := (256 - n % 256) % 256

/-- Map a record-type tag byte to a `RecordType` (spec section 4.1):
`00` data, `01` end-of-file, `02` extended-segment-address, `04`
extended-linear-address, anything else a benign `Other`. -/
def decodeType (ty : Nat) : RecordType :=
  if ty = 0 then .Data
  else if ty = 1 then .EndOfFile
  else if ty = 2 then .ExtendedSegment
  else if ty = 4 then .ExtendedLinear
  else .Other

/-- Modelled from the spec: the record-level part of HexRecordParser of the
`ezusb` module (declared in `ezusb.h`; its implementation is not among the
sources), spec section 4.1.  The decoded bytes of a record line are
byte-count, 16-bit address (high byte first), record-type tag, payload
bytes, and a final checksum byte that must equal the two's-complement of the
sum of all preceding bytes modulo 256. -/
def parseRecordBytes (bytes : List Nat) : Except ParseError HexRecord :=
  match bytes with
  | count :: ah :: al :: ty :: rest =>
    if rest.length = count + 1 then
      let payload := rest.dropLast
      if rest.getLastD 0 = twosComplement (count + ah + al + ty + payload.sum) then
        .ok { recordType := decodeType ty, address := ah * 256 + al, payload := payload }
      else .error (.MalformedRecord .checksumMismatch)
    else .error (.MalformedRecord .truncatedLine)
  | _ => .error (.MalformedRecord .truncatedLine)

/-- Modelled from the spec: HexRecordParser applied to one line of text
(spec section 4.1).  The line must begin with the start-marker sentinel
character, followed by an even run of hexadecimal digits. -/
def parseLine (line : List Char) : Except ParseError HexRecord :=
  match line with
  | ':' :: rest =>
    match decodeHexPairs rest with
    | some bytes => parseRecordBytes bytes
    | none => .error (.MalformedRecord .oddDigitCount)
  | _ => .error (.MalformedRecord .missingStartMarker)

/-- True exactly when the line parses to some record. -/
def parsesOk (line : List Char) : Bool :=
  match parseLine line with
  | .ok _ => true
  | .error _ => false

/-- True exactly when the line parses to an end-of-file record. -/
def isEofLine (line : List Char) : Bool :=
  match parseLine line with
  | .ok r => r.recordType == .EndOfFile
  | .error _ => false

/-! ## Firmware image loader (FirmwareImageLoader) -/

/-- A contiguous run of firmware bytes at an absolute target address
(spec section 3). -/
structure Segment where
  baseAddress : Nat
  bytes : List Nat
  deriving DecidableEq, Repr

/-- Failure conditions of the image loader (spec sections 4.2 and 7). -/
inductive ImageError
  | MalformedRecord (why : MalformedReason)
  | TruncatedImage
  deriving DecidableEq, Repr

/-- Running state of the image loader: the extended-address offset, the
currently open segment, and the segments already closed, in file order. -/
structure LoaderState where
  addressOffset : Nat
  current : Option Segment
  closed : List Segment
  deriving DecidableEq, Repr

/-- Big-endian value of a record payload, used by extended-address records. -/
def payloadValue (payload : List Nat) : Nat :=
  payload.foldl (fun a b => a * 256 + b) 0

/-- Modelled from the spec: one data record appended to the loader state
(spec section 4.2).  The payload extends the open segment when the absolute
address is contiguous with its end, otherwise the open segment is closed and
a new one is opened at the new absolute address. -/
def stepData (st : LoaderState) (r : HexRecord) : LoaderState :=
  let abs := st.addressOffset + r.address
  match st.current with
  | some s =>
    if abs = s.baseAddress + s.bytes.length then
      { st with current := some { s with bytes := s.bytes ++ r.payload } }
    else
      { st with current := some ⟨abs, r.payload⟩, closed := st.closed ++ [s] }
  | none => { st with current := some ⟨abs, r.payload⟩ }

/-- Close the final open segment and return the completed segment list. -/
def finishSegments (st : LoaderState) : List Segment :=
  match st.current with
  | some s => st.closed ++ [s]
  | none => st.closed

/-- Modelled from the spec: FirmwareImageLoader over the remaining lines of
the stream (spec section 4.2).  The input exhausting before an end-of-file
record is `TruncatedImage`; parser failures propagate without recovery. -/
def loadLines : List (List Char) → LoaderState → Except ImageError (List Segment)
  | [], _ => .error .TruncatedImage
  | line :: rest, st =>
    match parseLine line with
    | .error (.MalformedRecord w) => .error (.MalformedRecord w)
    | .ok r =>
      match r.recordType with
      | .EndOfFile => .ok (finishSegments st)
      | .Data => loadLines rest (stepData st r)
      | .ExtendedSegment =>
        loadLines rest { st with addressOffset := payloadValue r.payload * 16 }
      | .ExtendedLinear =>
        loadLines rest { st with addressOffset := payloadValue r.payload * 65536 }
      | .Other => loadLines rest st

/-- Modelled from the spec: FirmwareImageLoader on a full stream of lines,
starting with offset zero and no open segment (spec section 4.2). -/
def loadImage (lines : List (List Char)) : Except ImageError (List Segment) :=
  loadLines lines ⟨0, none, []⟩

/-! ## Download engine (DownloadEngine) -/

/-- Modelled from the spec: the immutable per-family device profile
(spec section 3). -/
structure DeviceProfile where
  chunkSize : Nat
  resetRegisterAddress : Nat
  resetAssertValue : Nat
  resetReleaseValue : Nat
  supportsEeprom : Bool
  eepromConfigByteSupported : Bool
  deriving DecidableEq, Repr

/-- Destination kind of a download pass (spec section 3). -/
inductive Destination
  | Ram
  | Eeprom
  deriving DecidableEq, Repr

/-- States of the download state machine (spec section 4.4). -/
inductive EngineState
  | Idle
  | ResetAsserted
  | Transferring
  | ResetReleased
  | Done
  | Failed
  deriving DecidableEq, Repr

/-- Failure conditions of the download engine (spec section 7).  The
transport error carries the opaque cause code handed back by the transport
collaborator. -/
inductive EngineError
  | UnsupportedOperation
  | TransportError (code : Nat)
  deriving DecidableEq, Repr

/-- One control-transfer operation issued against the transport collaborator
(spec section 6): reset assert/release writes, RAM chunk writes and EEPROM
program commands.  The EEPROM config byte mechanics are not detailed by the
specification and are left out of the operation. -/
inductive EngineOp
  | resetAssert (addr val : Nat)
  | chunkWrite (addr : Nat) (data : List Nat)
  | eepromWrite (addr : Nat) (data : List Nat)
  | resetRelease (addr val : Nat)
  deriving DecidableEq, Repr

/-- Split loop of `chunkify`, structurally recursive on a fuel that starts
at the byte count; each step consumes at least one byte (the chunk size is
at least one in every call), so the fuel never runs out. -/
def chunkifyGo (csz : Nat) : Nat → Nat → List Nat → List (Nat × List Nat)
  | 0, base, bytes => if bytes.isEmpty then [] else [(base, bytes)]
  | fuel + 1, base, bytes =>
    if bytes.length ≤ csz then (if bytes.isEmpty then [] else [(base, bytes)])
    else (base, bytes.take csz) :: chunkifyGo csz fuel (base + csz) (bytes.drop csz)

/-- Modelled from the spec: split a segment's byte sequence into consecutive
chunks no larger than the chunk size, tagged with their absolute addresses;
a chunk size of zero means the whole sequence goes in one write
(spec section 4.4, step 2).  An empty byte sequence needs no write. -/
def chunkify (csz base : Nat) (bytes : List Nat) : List (Nat × List Nat) :=
  if csz = 0 then (if bytes.isEmpty then [] else [(base, bytes)])
  else chunkifyGo csz bytes.length base bytes

/-- The addresses of a chunk list are consecutive starting from the given
address: each chunk begins where the previous one ended. -/
def chunksConsecutive : Nat → List (Nat × List Nat) → Prop
  | _, [] => True
  | a0, c :: rest => c.1 = a0 ∧ chunksConsecutive (a0 + c.2.length) rest

/-- All chunks of all segments of one pass, in image order
(spec section 4.4, step 2). -/
def segmentChunks (csz : Nat) (segs : List Segment) : List (Nat × List Nat) :=
  segs.flatMap (fun s => chunkify csz s.baseAddress s.bytes)

/-- Issue one control write per chunk, in order, numbering transport calls
from `idx`.  The transport answers call `n` with `none` for success or
`some code` for a failure; a failure aborts the remaining chunks of the
pass.  Returns the operations attempted (the failed attempt included), the
first failure code if any, and the next transport call number. -/
def issueChunks (transport : Nat → Option Nat) (mk : Nat → List Nat → EngineOp) :
    Nat → List (Nat × List Nat) → List EngineOp × Option Nat × Nat
  | idx, [] => ([], none, idx)
  | idx, (a, d) :: rest =>
    match transport idx with
    | none =>
      let r := issueChunks transport mk (idx + 1) rest
      (mk a d :: r.1, r.2.1, r.2.2)
    | some c => ([mk a d], some c, idx + 1)

/-- Outcome of one download pass: the result value, the operations issued
against the transport (one transport call per operation), and the terminal
state of the state machine. -/
structure PassResult where
  status : Except EngineError Unit
  trace : List EngineOp
  final : EngineState
  deriving Repr

/-- Modelled from the spec: the `Transferring` and `ResetReleased` steps of
a pass (spec section 4.4, steps 2 and 3).  The reset-release write is
attempted exactly once after the chunk loop, even when a chunk transfer
failed; a release failure is reported only when there is no original
transfer failure to surface. -/
def runTransfer (profile : DeviceProfile) (mk : Nat → List Nat → EngineOp)
    (transport : Nat → Option Nat) (idx : Nat) (pre : List EngineOp)
    (chunks : List (Nat × List Nat)) : PassResult :=
  let r := issueChunks transport mk idx chunks
  let releaseOp := EngineOp.resetRelease profile.resetRegisterAddress profile.resetReleaseValue
  match r.2.1 with
  | some c => ⟨.error (.TransportError c), pre ++ r.1 ++ [releaseOp], .Failed⟩
  | none =>
    match transport r.2.2 with
    | some c => ⟨.error (.TransportError c), pre ++ r.1 ++ [releaseOp], .Failed⟩
    | none => ⟨.ok (), pre ++ r.1 ++ [releaseOp], .Done⟩

/-- Modelled from the spec: one full download pass of the DownloadEngine
state machine (spec section 4.4).  Requesting the EEPROM destination on a
profile without EEPROM support is a static `UnsupportedOperation` failure
raised before any transfer begins.  A RAM pass first asserts CPU reset; an
EEPROM pass uses the dedicated vendor program command instead and skips the
reset-assert step.  The reset-release step always runs once `Transferring`
has started. -/
def runPass (profile : DeviceProfile) (segments : List Segment) (dest : Destination)
    (transport : Nat → Option Nat) : PassResult :=
  if dest = .Eeprom ∧ profile.supportsEeprom = false then
    ⟨.error .UnsupportedOperation, [], .Failed⟩
  else
    match dest with
    | .Ram =>
      let aOp := EngineOp.resetAssert profile.resetRegisterAddress profile.resetAssertValue
      match transport 0 with
      | some c => ⟨.error (.TransportError c), [aOp], .Failed⟩
      | none =>
        runTransfer profile EngineOp.chunkWrite transport 1 [aOp]
          (segmentChunks profile.chunkSize segments)
    | .Eeprom =>
      runTransfer profile EngineOp.eepromWrite transport 0 []
        (segmentChunks profile.chunkSize segments)

/-- Whether an operation is the reset-release control write. -/
def isRelease : EngineOp → Bool
  | .resetRelease _ _ => true
  | _ => false

/-- Number of reset-release control writes in a trace. -/
def releaseCount (ops : List EngineOp) : Nat := (ops.filter isRelease).length

/-! ## Embedding of `examples/fxload.c`

The file contains two entry-point variants of `main`; both process the same
option letters through a getopt loop, check the EEPROM config-byte
constraints, open and claim the device and then run one or two download
passes through the `ezusb` module.  The first variant additionally matches
enumerated devices against a known-device table to fill in a missing
microcontroller type or VID:PID. -/

/-- One parsed command-line option, as delivered by the getopt loop of
`main`.  The argument of `-c` is recorded as the C `int` value `config`
receives from `strtoul`. -/
inductive Opt
  | optD (s : String)
  | optI (s : String)
  | optV
  | optC (v : Int)
  | optS (s : String)
  | optT (s : String)
  | optv
  | optUnknown
  deriving DecidableEq, Repr

/-- The option-processing state of `main`: `device_id` (seeded from the
DEVICE environment variable), `firmware_path` (`ihex_path` in the second
variant), `loader_path` (`stage1` in the second variant), `type` and
`config` (initially -1). -/
structure OptState where
  device_id : Option String
  firmware_path : Option String
  loader_path : Option String
  type : Option String
  config : Int
  deriving DecidableEq, Repr

/-- Early exits from the getopt loop: `-V` prints the version and returns 0;
an illegal option or an illegal `-c` value jumps to the usage label. -/
inductive LoopExit
  | versionExit
  | usageExit
  deriving DecidableEq, Repr

/-- The getopt loop of the first variant of `main` (fxload.c lines
100-139): each option updates the state; `-c` values outside 0..255 are
rejected at once with a usage diagnostic. -/
def getoptLoop : List Opt → OptState → Except LoopExit OptState
  | [], st => .ok st
  | o :: rest, st =>
    match o with
    | .optD s => getoptLoop rest { st with device_id := some s }
    | .optI s => getoptLoop rest { st with firmware_path := some s }
    | .optV => .error .versionExit
    | .optC v =>
      if v < 0 ∨ 255 < v then .error .usageExit
      else getoptLoop rest { st with config := v }
    | .optS s => getoptLoop rest { st with loader_path := some s }
    | .optT s => getoptLoop rest { st with type := some s }
    | .optv => getoptLoop rest st
    | .optUnknown => .error .usageExit

/-- The `-t` tokens accepted by the second variant of `main` (fxload.c
lines 412-419); `fx3` is not among them. -/
def validTypeV2 (s : String) : Bool :=
  (s == "an21") || (s == "fx") || (s == "fx2") || (s == "fx2lp")

/-- The getopt loop of the second variant of `main` (fxload.c lines
384-431); identical to the first except that `-t` validates its token at
once against the four known names. -/
def getoptLoopV2 : List Opt → OptState → Except LoopExit OptState
  | [], st => .ok st
  | o :: rest, st =>
    match o with
    | .optD s => getoptLoopV2 rest { st with device_id := some s }
    | .optI s => getoptLoopV2 rest { st with firmware_path := some s }
    | .optV => .error .versionExit
    | .optC v =>
      if v < 0 ∨ 255 < v then .error .usageExit
      else getoptLoopV2 rest { st with config := v }
    | .optS s => getoptLoopV2 rest { st with loader_path := some s }
    | .optT s =>
      if validTypeV2 s then getoptLoopV2 rest { st with type := some s }
      else .error .usageExit
    | .optv => getoptLoopV2 rest st
    | .optUnknown => .error .usageExit

/-- Split a character list at the first colon: the characters before it and,
when a colon is present, the characters after it. -/
def splitColon : List Char → List Char × Option (List Char)
  | [] => ([], none)
  | ':' :: rest => ([], some rest)
  | c :: rest =>
    let r := splitColon rest
    (c :: r.1, r.2)

/-- Value of a non-empty run of hexadecimal digits, or `none`. -/
def hexStrVal (cs : List Char) : Option Nat :=
  match cs with
  | [] => none
  | _ =>
    cs.foldl (fun acc c =>
      match acc, hexVal c with
      | some a, some v => some (a * 16 + v)
      | _, _ => none) (some 0)

/-- The `sscanf(device_id, "%x:%x", &vid, &pid)` parse of the device
selector: two runs of hexadecimal digits separated by a colon. -/
def parseVidPid (s : String) : Option (Nat × Nat) :=
  match splitColon s.toList with
  | (a, some rest) =>
    match splitColon rest with
    | (b, none) =>
      match hexStrVal a, hexStrVal b with
      | some v, some p => some (v, p)
      | _, _ => none
    | _ => none
  | _ => none

/-- Modelled from the spec: the FX_TYPE_NAMES table of `ezusb.h` (not among
the sources); the CLI type tokens in index order (spec section 6), with the
bracketed `fx3` present in the first variant's table. -/
def fx_name : List String := ["an21", "fx", "fx2", "fx2lp", "fx3"]

/-- Modelled from the spec: FX_TYPE_UNDEFINED of `ezusb.h` (not among the
sources), the initial value of `fx_type` before any type is resolved. -/
def FX_TYPE_UNDEFINED : Int := -1

/-- The type-resolution loop of the first variant of `main` (fxload.c lines
166-178): a supplied token is looked up in `fx_name` and an unknown token
jumps to usage; without a token, `fx_type` keeps FX_TYPE_UNDEFINED. -/
def resolveTypeV1 (t : Option String) : Except Unit Int :=
  match t with
  | none => .ok FX_TYPE_UNDEFINED
  | some s =>
    match fx_name.findIdx? (fun n => n == s) with
    | some i => .ok (Int.ofNat i)
    | none => .error ()

/-- One row of the known-device table (`fx_known_device` of `ezusb.h`); the
table itself is data handed to `main`, not engine logic. -/
structure KnownDevice where
  vid : Nat
  pid : Nat
  type : Int
  deriving DecidableEq, Repr

/-- The inner matching loop of the first variant of `main` (fxload.c lines
200-219), for one enumerated device descriptor `desc` against the
known-device table: on a VID:PID hit, when both type and device id are
missing both are taken from the table row; when only the type is missing it
is taken from the row provided the descriptor equals the caller's VID:PID;
when only the device id is missing the descriptor's VID:PID is taken
provided the row's type equals the caller's resolved type.  The first row
satisfying one of these wins; otherwise the loop continues. -/
def innerMatch (typeNone devNone : Bool) (fx_type : Int) (vid pid : Nat)
    (desc : Nat × Nat) : List KnownDevice → Option (Int × Nat × Nat)
  | [] => none
  | kd :: rest =>
    if desc.1 = kd.vid ∧ desc.2 = kd.pid then
      if typeNone ∧ devNone then some (kd.type, desc.1, desc.2)
      else if typeNone ∧ (vid = desc.1 ∧ pid = desc.2) then some (kd.type, vid, pid)
      else if devNone ∧ fx_type = kd.type then some (fx_type, desc.1, desc.2)
      else innerMatch typeNone devNone fx_type vid pid desc rest
    else innerMatch typeNone devNone fx_type vid pid desc rest

/-- The outer device-enumeration loop of the first variant of `main`
(fxload.c lines 195-227): the first enumerated device whose descriptor
produces an inner-loop hit is selected, together with the resolved
(fx_type, vid, pid) triple. -/
def scanDevices (typeNone devNone : Bool) (fx_type : Int) (vid pid : Nat)
    (known : List KnownDevice) : List (Nat × Nat) → Option ((Nat × Nat) × (Int × Nat × Nat))
  | [] => none
  | d :: rest =>
    match innerMatch typeNone devNone fx_type vid pid d known with
    | some t => some (d, t)
    | none => scanDevices typeNone devNone fx_type vid pid known rest

/-- The enumerated devices that the inner matching loop would accept: the
candidates consistent with the caller-supplied criteria. -/
def consistentDevices (typeNone devNone : Bool) (fx_type : Int) (vid pid : Nat)
    (known : List KnownDevice) (devs : List (Nat × Nat)) : List (Nat × Nat) :=
  devs.filter (fun d => (innerMatch typeNone devNone fx_type vid pid d known).isSome)

/-- One call into the `ezusb` module: `ezusb_load_ram(device, path, type,
stage)` or `ezusb_load_eeprom(device, path, type, config)`; the type
argument is the integer `fx_type` in the first variant and the integer
`fx2` flag (second variant RAM calls) or the type token (second variant
EEPROM call). -/
inductive LoadCall
  | loadRam (path : String) (typeArg : Int) (stage : Nat)
  | loadEepromV1 (path : String) (typeArg : Int) (config : Int)
  | loadEepromV2 (path : String) (typeName : String) (config : Int)
  deriving DecidableEq, Repr

/-- The download phase shared by both variants of `main` (fxload.c lines
266-284 and 502-520): with a first-stage loader, a RAM pass for the loader
runs first and on its failure the status is returned with no second pass;
on success the second pass goes to EEPROM when a config byte was supplied
and to RAM otherwise.  Without a loader a single RAM pass runs.  `run` is
the `ezusb` collaborator returning each call's status. -/
def downloadStage (loader : Option String) (fw : String) (config : Int)
    (mkRam : String → Nat → LoadCall) (mkEeprom : String → Int → LoadCall)
    (run : LoadCall → Int) : Int × List LoadCall :=
  match loader with
  | some lp =>
    let s1 := run (mkRam lp 0)
    if s1 ≠ 0 then (s1, [mkRam lp 0])
    else if 0 ≤ config then (run (mkEeprom fw config), [mkRam lp 0, mkEeprom fw config])
    else (run (mkRam fw 1), [mkRam lp 0, mkRam fw 1])
  | none => (run (mkRam fw 0), [mkRam fw 0])

/-- Observable events of one `main` run: the usage diagnostic, the version
print, the VID:PID format diagnostic, the device being opened, and each
`ezusb` load call. -/
inductive Ev
  | usage
  | version
  | vidPidErr
  | openedDevice
  | load (c : LoadCall)
  deriving DecidableEq, Repr

/-- Result of one `main` run: the process exit status and the events in
order. -/
structure RunResult where
  exit : Int
  trace : List Ev
  deriving DecidableEq, Repr

/-- Claim-interface-and-download tail shared by both variants of `main`:
after the device is opened, the first interface is claimed (failure returns
-1) and then the download phase runs, its status becoming the exit
status. -/
def afterOpen (claimOk : Bool) (loader : Option String) (fw : String) (config : Int)
    (mkRam : String → Nat → LoadCall) (mkEeprom : String → Int → LoadCall)
    (run : LoadCall → Int) : RunResult :=
  if claimOk then
    let r := downloadStage loader fw config mkRam mkEeprom run
    ⟨r.1, .openedDevice :: r.2.map Ev.load⟩
  else ⟨-1, [.openedDevice]⟩

/-- The first variant of `main` (fxload.c lines 86-291).  `envDevice` is
the DEVICE environment variable, `devs` the enumerated device descriptors,
`known` the FX_KNOWN_DEVICES table, `openOk` and `claimOk` the outcomes of
the libusb open and claim calls, and `run` the `ezusb` collaborator.
Ordering follows the source: getopt loop, EEPROM config checks, firmware
check, VID:PID parse, type resolution, then either table matching (when
type or device id is missing) or a direct open, claim, and the download
phase. -/
def mainV1 (opts : List Opt) (envDevice : Option String)
    (devs : List (Nat × Nat)) (known : List KnownDevice)
    (openOk claimOk : Bool) (run : LoadCall → Int) : RunResult :=
  match getoptLoop opts ⟨envDevice, none, none, none, -1⟩ with
  | .error .versionExit => ⟨0, [.version]⟩
  | .error .usageExit => ⟨-1, [.usage]⟩
  | .ok st =>
    if 0 ≤ st.config ∧ st.type = none then ⟨-1, [.usage]⟩
    else if 0 ≤ st.config ∧ (st.loader_path = none ∨ st.firmware_path = none) then
      ⟨-1, [.usage]⟩
    else
      match st.firmware_path with
      | none => ⟨-1, [.usage]⟩
      | some fw =>
        let vp := st.device_id.bind parseVidPid
        if st.device_id.isSome ∧ vp = none then ⟨-1, [.vidPidErr]⟩
        else
          match resolveTypeV1 st.type with
          | .error _ => ⟨-1, [.usage]⟩
          | .ok fx_type =>
            let vid := (vp.getD (0, 0)).1
            let pid := (vp.getD (0, 0)).2
            if st.type.isNone || st.device_id.isNone then
              match scanDevices st.type.isNone st.device_id.isNone fx_type vid pid
                  known devs with
              | none => ⟨-1, [.usage]⟩
              | some (_, (ft2, _, _)) =>
                if openOk then
                  afterOpen claimOk st.loader_path fw st.config
                    (fun p s => .loadRam p ft2 s) (fun p c => .loadEepromV1 p ft2 c) run
                else ⟨-1, []⟩
            else
              if openOk then
                afterOpen claimOk st.loader_path fw st.config
                  (fun p s => .loadRam p fx_type s)
                  (fun p c => .loadEepromV1 p fx_type c) run
              else ⟨-1, []⟩

/-- The type defaulting of the second variant of `main` (fxload.c lines
491-497): a missing `-t` silently becomes type "fx" with `fx2 = 0`
(an21-compatible); "fx2lp" gives `fx2 = 2`, "fx2" gives `fx2 = 1` and any
other token gives `fx2 = 0`. -/
def resolveTypeV2 (t : Option String) : String × Int :=
  match t with
  | none => ("fx", 0)
  | some s => (s, if s == "fx2lp" then 2 else if s == "fx2" then 1 else 0)

/-- The second variant of `main` (fxload.c lines 373-527).  Ordering
follows the source: getopt loop, EEPROM config checks, the
device-path-and-firmware check (a device selector is mandatory here),
VID:PID parse, open, claim, type defaulting and the download phase. -/
def mainV2 (opts : List Opt) (envDevice : Option String) (openOk claimOk : Bool)
    (run : LoadCall → Int) : RunResult :=
  match getoptLoopV2 opts ⟨envDevice, none, none, none, -1⟩ with
  | .error .versionExit => ⟨0, [.version]⟩
  | .error .usageExit => ⟨-1, [.usage]⟩
  | .ok st =>
    if 0 ≤ st.config ∧ st.type = none then ⟨-1, [.usage]⟩
    else if 0 ≤ st.config ∧ (st.loader_path = none ∨ st.firmware_path = none) then
      ⟨-1, [.usage]⟩
    else
      match st.device_id, st.firmware_path with
      | none, _ => ⟨-1, [.usage]⟩
      | some _, none => ⟨-1, [.usage]⟩
      | some ds, some fw =>
        match parseVidPid ds with
        | none => ⟨-1, [.vidPidErr]⟩
        | some _ =>
          if openOk then
            let tf := resolveTypeV2 st.type
            afterOpen claimOk st.loader_path fw st.config
              (fun p s => .loadRam p tf.2 s) (fun p c => .loadEepromV2 p tf.1 c) run
          else ⟨-1, []⟩

/-! ## The logerror diagnostic sink -/

/-- Where a `logerror` message ends up. -/
inductive LogSink
  | toStderr
  | toSyslog
  | dropped
  deriving DecidableEq, Repr

/-- The initial (and, in this file, only) value of the `dosyslog` flag
(fxload.c line 57): it is declared false and never assigned. -/
def dosyslogInit : Bool := false

/-- The body of `logerror` (fxload.c lines 71-84) after C preprocessing.
On a Windows build only the `vfprintf(stderr, ...)` line remains.  On a
non-Windows build the preprocessed body is
`if (dosyslog) vsyslog(...); else va_end(ap);` — the stderr print sits in
the `#else` branch of `#if !defined(_WIN32)` and is compiled out, so with
`dosyslog` false the message is discarded. -/
def logerrorSink (win32 dosyslog : Bool) : LogSink :=
  if win32 then .toStderr
  else if dosyslog then .toSyslog
  else .dropped

/-! ## Theorems -/

/-- C2: requesting the EEPROM destination against a profile without EEPROM
support fails with UnsupportedOperation before any control transfer is
issued: the trace is empty (zero transport calls) and the terminal state is
Failed. -/
theorem ezusb_c2_eeprom_unsupported (profile : DeviceProfile) (segs : List Segment)
    (transport : Nat → Option Nat) (h : profile.supportsEeprom = false) :
    runPass profile segs .Eeprom transport =
      ⟨.error .UnsupportedOperation, [], .Failed⟩ := by
  simp [runPass, h]

/-- Witness for C2 at a concrete profile, image and transport. -/
theorem ezusb_c2_eeprom_unsupported_witness :
    runPass ⟨64, 0xE600, 1, 0, false, false⟩ [⟨0, [1, 2, 3]⟩] .Eeprom (fun _ => none) =
      ⟨.error .UnsupportedOperation, [], .Failed⟩ :=
  ezusb_c2_eeprom_unsupported ⟨64, 0xE600, 1, 0, false, false⟩ [⟨0, [1, 2, 3]⟩]
    (fun _ => none) rfl

/-- C3: with a first-stage loader, the loader RAM pass runs first; the
second pass (EEPROM when a config byte was supplied, RAM otherwise) starts
only if the first pass returned status 0, and on a first-pass failure its
status is returned with no second load attempted. -/
theorem fxload_c3_two_stage (lp fw : String) (config : Int)
    (mkRam : String → Nat → LoadCall) (mkEeprom : String → Int → LoadCall)
    (run : LoadCall → Int) :
    (run (mkRam lp 0) ≠ 0 →
      downloadStage (some lp) fw config mkRam mkEeprom run =
        (run (mkRam lp 0), [mkRam lp 0])) ∧
    (run (mkRam lp 0) = 0 → 0 ≤ config →
      downloadStage (some lp) fw config mkRam mkEeprom run =
        (run (mkEeprom fw config), [mkRam lp 0, mkEeprom fw config])) ∧
    (run (mkRam lp 0) = 0 → config < 0 →
      downloadStage (some lp) fw config mkRam mkEeprom run =
        (run (mkRam fw 1), [mkRam lp 0, mkRam fw 1])) := by
  refine ⟨fun h1 => ?_, fun h1 h2 => ?_, fun h1 h2 => ?_⟩
  · simp [downloadStage, h1]
  · simp [downloadStage, h1, h2]
  · have h3 : ¬ (0 ≤ config) := by omega
    simp [downloadStage, h1, h3]

/-- Witness for C3: a failing loader pass (status 5) is returned as is,
with no second load attempted. -/
theorem fxload_c3_two_stage_witness :
    downloadStage (some "ld.hex") "fw.hex" (-1) (fun p s => .loadRam p 0 s)
      (fun p c => .loadEepromV1 p 0 c) (fun _ => 5) = (5, [.loadRam "ld.hex" 0 0]) :=
  (fxload_c3_two_stage "ld.hex" "fw.hex" (-1) (fun p s => .loadRam p 0 s)
    (fun p c => .loadEepromV1 p 0 c) (fun _ => 5)).1 (by decide)

/-- C9: code bug in the diagnostic path.  On a non-Windows build with the
program's only value of dosyslog (false, never assigned), logerror discards
its message entirely: after preprocessing, the stderr vfprintf exists only
in the Windows branch, so the else-arm of the dosyslog test is the stray
va_end and nothing is written to stderr or syslog, contradicting the claim
that diagnostics go to the error stream or syslog. -/
theorem fxload_c9_logerror_dropped :
    logerrorSink false dosyslogInit = LogSink.dropped ∧
    dosyslogInit = false ∧
    logerrorSink true dosyslogInit = LogSink.toStderr ∧
    logerrorSink false true = LogSink.toSyslog :=
  ⟨rfl, rfl, rfl, rfl⟩

/-- When the option list contains a `-c` value outside 0..255 and no `-V`
(which would print the version and exit 0 before the bad value is reached),
the getopt loop exits through the usage label. -/
theorem getoptLoop_badConfig (v : Int) (hbad : v < 0 ∨ 255 < v) :
    ∀ (opts : List Opt), Opt.optC v ∈ opts → Opt.optV ∉ opts →
      ∀ st, getoptLoop opts st = .error .usageExit := by
  intro opts
  induction opts with
  | nil => intro h; simp at h
  | cons o rest ih =>
    intro hin hnoV st
    have hnoV2 : Opt.optV ∉ rest := fun h => hnoV (List.mem_cons_of_mem _ h)
    rcases List.mem_cons.mp hin with heq | hmem
    · rw [← heq]
      simp [getoptLoop, hbad]
    · cases o with
      | optD s => simpa [getoptLoop] using ih hmem hnoV2 _
      | optI s => simpa [getoptLoop] using ih hmem hnoV2 _
      | optV => exact absurd (List.mem_cons_self _ _) hnoV
      | optC w =>
        by_cases hw : w < 0 ∨ 255 < w
        · simp [getoptLoop, hw]
        · simpa [getoptLoop, hw] using ih hmem hnoV2 _
      | optS s => simpa [getoptLoop] using ih hmem hnoV2 _
      | optT s => simpa [getoptLoop] using ih hmem hnoV2 _
      | optv => simpa [getoptLoop] using ih hmem hnoV2 _
      | optUnknown => simp [getoptLoop]

/-- C8: an invocation whose `-c` argument parses to a value outside 0..255
(with no `-V`, which exits before the config argument is parsed) is
rejected with the usage diagnostic and exit status -1, before any device is
opened and before any transfer is attempted. -/
theorem fxload_c8_config_range (opts : List Opt) (envDevice : Option String)
    (devs : List (Nat × Nat)) (known : List KnownDevice) (openOk claimOk : Bool)
    (run : LoadCall → Int) (v : Int)
    (hin : Opt.optC v ∈ opts) (hbad : v < 0 ∨ 255 < v) (hnoV : Opt.optV ∉ opts) :
    mainV1 opts envDevice devs known openOk claimOk run = ⟨-1, [Ev.usage]⟩ ∧
    (mainV1 opts envDevice devs known openOk claimOk run).exit ≠ 0 ∧
    Ev.openedDevice ∉ (mainV1 opts envDevice devs known openOk claimOk run).trace ∧
    ∀ c, Ev.load c ∉ (mainV1 opts envDevice devs known openOk claimOk run).trace := by
  have h := getoptLoop_badConfig v hbad opts hin hnoV ⟨envDevice, none, none, none, -1⟩
  have hm : mainV1 opts envDevice devs known openOk claimOk run = ⟨-1, [Ev.usage]⟩ := by
    simp [mainV1, h]
  refine ⟨hm, ?_, ?_, ?_⟩ <;> rw [hm] <;> simp

/-- Witness for C8 at a concrete invocation with -c 256. -/
theorem fxload_c8_config_range_witness :
    mainV1 [Opt.optI "fw.hex", Opt.optC 256] none [] [] true true (fun _ => 0) =
      ⟨-1, [Ev.usage]⟩ :=
  (fxload_c8_config_range [Opt.optI "fw.hex", Opt.optC 256] none [] [] true true
    (fun _ => 0) 256 (by decide) (by decide) (by decide)).1

/-- C10: in the second entry-point variant, with the getopt loop completing
and no `-t` supplied, the type silently defaults to "fx" with fx2 = 0 and,
given a valid vid:pid selector, a firmware path and successful open and
claim, the download proceeds with that default when no config byte was
supplied; a missing type is an error (usage exit) exactly when a config
byte was also supplied. -/
theorem fxload_c10_default_type (opts : List Opt) (envDevice : Option String)
    (st : OptState) (run : LoadCall → Int)
    (hloop : getoptLoopV2 opts ⟨envDevice, none, none, none, -1⟩ = .ok st)
    (htype : st.type = none) :
    (∀ ds fw v p, st.device_id = some ds → st.firmware_path = some fw →
      parseVidPid ds = some (v, p) → st.config < 0 →
      resolveTypeV2 st.type = ("fx", 0) ∧
      mainV2 opts envDevice true true run =
        ⟨(downloadStage st.loader_path fw st.config (fun q s => .loadRam q 0 s)
            (fun q c => .loadEepromV2 q "fx" c) run).1,
          Ev.openedDevice ::
            (downloadStage st.loader_path fw st.config (fun q s => .loadRam q 0 s)
              (fun q c => .loadEepromV2 q "fx" c) run).2.map Ev.load⟩) ∧
    (0 ≤ st.config → mainV2 opts envDevice true true run = ⟨-1, [Ev.usage]⟩) := by
  constructor
  · intro ds fw v p hds hfw hvp hcfg
    have h1 : ¬ (0 ≤ st.config) := by omega
    refine ⟨by simp [resolveTypeV2, htype], ?_⟩
    simp [mainV2, hloop, htype, hds, hfw, hvp, afterOpen, resolveTypeV2, h1]
  · intro h2
    simp [mainV2, hloop, htype, h2]

/-- Witness for C10: no -t with a valid selector proceeds with fx2 = 0; no
-t with -c 5 is a usage error. -/
theorem fxload_c10_default_type_witness :
    mainV2 [Opt.optD "04b4:8613", Opt.optI "fw.hex"] none true true (fun _ => 0) =
      ⟨0, [Ev.openedDevice, Ev.load (.loadRam "fw.hex" 0 0)]⟩ ∧
    mainV2 [Opt.optI "fw.hex", Opt.optC 5] none true true (fun _ => 0) =
      ⟨-1, [Ev.usage]⟩ := by
  constructor
  · have h := ((fxload_c10_default_type [Opt.optD "04b4:8613", Opt.optI "fw.hex"] none
      ⟨some "04b4:8613", some "fw.hex", none, none, -1⟩ (fun _ => 0) rfl rfl).1
      "04b4:8613" "fw.hex" 0x04b4 0x8613 rfl rfl rfl (by decide)).2
    exact h.trans (by rfl)
  · exact (fxload_c10_default_type [Opt.optI "fw.hex", Opt.optC 5] none
      ⟨none, some "fw.hex", none, none, 5⟩ (fun _ => 0) rfl rfl).2 (by decide)

/-- The outer enumeration loop selects the first device with an inner-loop
hit: a selected device decomposes the enumeration into unmatched devices
before it, and the loop returns its inner-loop result. -/
theorem scanDevices_some_first (tn dn : Bool) (ft : Int) (v p : Nat)
    (known : List KnownDevice) :
    ∀ (devs : List (Nat × Nat)) (d : Nat × Nat) (t : Int × Nat × Nat),
      scanDevices tn dn ft v p known devs = some (d, t) →
      innerMatch tn dn ft v p d known = some t ∧
      ∃ pre post, devs = pre ++ d :: post ∧
        ∀ e ∈ pre, innerMatch tn dn ft v p e known = none := by
  intro devs
  induction devs with
  | nil => intro d t h; simp [scanDevices] at h
  | cons d0 rest ih =>
    intro d t h
    cases him : innerMatch tn dn ft v p d0 known with
    | some t0 =>
      simp [scanDevices, him] at h
      obtain ⟨rfl, rfl⟩ := h
      exact ⟨him, [], rest, rfl, by simp⟩
    | none =>
      simp [scanDevices, him] at h
      obtain ⟨h1, pre, post, heq, hall⟩ := ih d t h
      refine ⟨h1, d0 :: pre, post, by rw [heq]; rfl, ?_⟩
      intro e he
      rcases List.mem_cons.mp he with rfl | he2
      · exact him
      · exact hall e he2

/-- When the enumeration loop finds nothing, no enumerated device has an
inner-loop hit. -/
theorem scanDevices_none (tn dn : Bool) (ft : Int) (v p : Nat)
    (known : List KnownDevice) :
    ∀ (devs : List (Nat × Nat)),
      scanDevices tn dn ft v p known devs = none →
      ∀ d ∈ devs, innerMatch tn dn ft v p d known = none := by
  intro devs
  induction devs with
  | nil => intro h d hd; simp at hd
  | cons d0 rest ih =>
    intro h d hd
    cases him : innerMatch tn dn ft v p d0 known with
    | some t0 => simp [scanDevices, him] at h
    | none =>
      simp [scanDevices, him] at h
      rcases List.mem_cons.mp hd with rfl | hd2
      · exact him
      · exact ih h d hd2

/-- With exactly one consistent enumerated device, the loop selects it. -/
theorem scanDevices_unique (tn dn : Bool) (ft : Int) (v p : Nat)
    (known : List KnownDevice) :
    ∀ (devs : List (Nat × Nat)) (d : Nat × Nat),
      consistentDevices tn dn ft v p known devs = [d] →
      ∃ t, scanDevices tn dn ft v p known devs = some (d, t) := by
  intro devs
  induction devs with
  | nil => intro d h; simp [consistentDevices] at h
  | cons d0 rest ih =>
    intro d h
    cases him : innerMatch tn dn ft v p d0 known with
    | some t0 =>
      simp [consistentDevices, List.filter_cons, him] at h
      obtain ⟨rfl, hrest⟩ := h
      exact ⟨t0, by simp [scanDevices, him]⟩
    | none =>
      simp [consistentDevices, List.filter_cons, him] at h
      obtain ⟨t, ht⟩ := ih d h
      exact ⟨t, by simp [scanDevices, him, ht]⟩

/-- C1 amended: when the caller supplies only one of type and vid:pid, the
identification loop resolves by the first enumerated device consistent with
the supplied value (never an ambiguity report); in particular, with exactly
one consistent device the missing value is derived from that single match. -/
theorem fxload_c1_first_match (tn dn : Bool) (ft : Int) (v p : Nat)
    (known : List KnownDevice) (devs : List (Nat × Nat)) :
    (∀ (d : Nat × Nat) (t : Int × Nat × Nat),
      scanDevices tn dn ft v p known devs = some (d, t) →
      innerMatch tn dn ft v p d known = some t ∧
      ∃ pre post, devs = pre ++ d :: post ∧
        ∀ e ∈ pre, innerMatch tn dn ft v p e known = none) ∧
    (scanDevices tn dn ft v p known devs = none →
      ∀ d ∈ devs, innerMatch tn dn ft v p d known = none) ∧
    (∀ d : Nat × Nat, consistentDevices tn dn ft v p known devs = [d] →
      ∃ t, scanDevices tn dn ft v p known devs = some (d, t)) :=
  ⟨fun d t h => scanDevices_some_first tn dn ft v p known devs d t h,
   fun h => scanDevices_none tn dn ft v p known devs h,
   fun d h => scanDevices_unique tn dn ft v p known devs d h⟩

/-- Witness for the C1 amended claim: with exactly one consistent device,
the identification derives the missing vid:pid from that single match. -/
theorem fxload_c1_first_match_witness :
    ∃ t, scanDevices false true 2 0 0 [⟨0x04B4, 0x8613, 2⟩] [(0x04B4, 0x8613)] =
      some ((0x04B4, 0x8613), t) :=
  (fxload_c1_first_match false true 2 0 0 [⟨0x04B4, 0x8613, 2⟩]
    [(0x04B4, 0x8613)]).2.2 (0x04B4, 0x8613) (by decide)

/-- C1 counterexample: with a caller-supplied type only (fx2, resolved
index 2) and two table rows of that same family with different VID:PID both
present among the enumerated devices, there are two distinct consistent
matches, yet identification resolves to the first enumerated match and the
program proceeds to download with exit status 0 — no AmbiguousDevice
report exists anywhere in its behaviour. -/
theorem fxload_c1_counterexample :
    (consistentDevices false true 2 0 0 [⟨0x04B4, 0x8613, 2⟩, ⟨0x0547, 0x2235, 2⟩]
      [(0x04B4, 0x8613), (0x0547, 0x2235)]).length = 2 ∧
    (0x04B4, 0x8613) ∈ consistentDevices false true 2 0 0
      [⟨0x04B4, 0x8613, 2⟩, ⟨0x0547, 0x2235, 2⟩] [(0x04B4, 0x8613), (0x0547, 0x2235)] ∧
    (0x0547, 0x2235) ∈ consistentDevices false true 2 0 0
      [⟨0x04B4, 0x8613, 2⟩, ⟨0x0547, 0x2235, 2⟩] [(0x04B4, 0x8613), (0x0547, 0x2235)] ∧
    scanDevices false true 2 0 0 [⟨0x04B4, 0x8613, 2⟩, ⟨0x0547, 0x2235, 2⟩]
      [(0x04B4, 0x8613), (0x0547, 0x2235)] =
      some ((0x04B4, 0x8613), (2, 0x04B4, 0x8613)) ∧
    mainV1 [Opt.optT "fx2", Opt.optI "fw.hex"] none
      [(0x04B4, 0x8613), (0x0547, 0x2235)]
      [⟨0x04B4, 0x8613, 2⟩, ⟨0x0547, 0x2235, 2⟩] true true (fun _ => 0) =
      ⟨0, [Ev.openedDevice, Ev.load (.loadRam "fw.hex" 2 0)]⟩ := by
  refine ⟨by decide, by decide, by decide, by decide, by decide⟩

/-- The last element of a list with a known final element. -/
theorem getLastD_concat_nat (l : List Nat) (a : Nat) : ∀ d, (l ++ [a]).getLastD d = a := by
  induction l with
  | nil => intro d; rfl
  | cons x xs ih => intro d; rw [List.cons_append, List.getLastD_cons]; exact ih x

/-- Evaluation of the byte-level parser on a record written with its final
checksum byte split off. -/
theorem parseRecordBytes_concat (count ah al ty : Nat) (pre : List Nat) (c : Nat) :
    parseRecordBytes (count :: ah :: al :: ty :: (pre ++ [c])) =
      if pre.length + 1 = count + 1 then
        (if c = twosComplement (count + ah + al + ty + pre.sum) then
          .ok { recordType := decodeType ty, address := ah * 256 + al, payload := pre }
        else .error (.MalformedRecord .checksumMismatch))
      else .error (.MalformedRecord .truncatedLine) := by
  simp [parseRecordBytes, getLastD_concat_nat]

/-- A record accepted by the byte-level parser always carries a final
checksum byte equal to the two's-complement of the sum of the bytes before
it. -/
theorem parseRecordBytes_ok_checksum (bytes : List Nat) (r : HexRecord)
    (h : parseRecordBytes bytes = .ok r) :
    ∃ body chk, bytes = body ++ [chk] ∧ chk = twosComplement body.sum := by
  rcases bytes with _ | ⟨count, _ | ⟨ah, _ | ⟨al, _ | ⟨ty, rest⟩⟩⟩⟩
  · simp [parseRecordBytes] at h
  · simp [parseRecordBytes] at h
  · simp [parseRecordBytes] at h
  · simp [parseRecordBytes] at h
  · rcases List.eq_nil_or_concat rest with rfl | ⟨ys, y, rfl⟩
    · simp [parseRecordBytes] at h
    · rw [List.concat_eq_append] at h ⊢
      rw [parseRecordBytes_concat] at h
      by_cases hlen : ys.length + 1 = count + 1
      · by_cases hchk : y = twosComplement (count + ah + al + ty + ys.sum)
        · refine ⟨count :: ah :: al :: ty :: ys, y, by simp, ?_⟩
          rw [hchk]
          congr 1
          simp [List.sum_cons]
          omega
        · rw [if_pos hlen, if_neg hchk] at h
          exact absurd h (by simp)
      · rw [if_neg hlen] at h
        exact absurd h (by simp)

/-- Altering the checksum byte of an accepted record to any other value
makes the parser reject the record with a checksum mismatch. -/
theorem parseRecordBytes_altered (body : List Nat) (c c2 : Nat) (r : HexRecord)
    (h : parseRecordBytes (body ++ [c]) = .ok r) (hne : c2 ≠ c) :
    parseRecordBytes (body ++ [c2]) = .error (.MalformedRecord .checksumMismatch) := by
  rcases body with _ | ⟨count, _ | ⟨ah, _ | ⟨al, _ | ⟨ty, pre⟩⟩⟩⟩
  · simp [parseRecordBytes] at h
  · simp [parseRecordBytes] at h
  · simp [parseRecordBytes] at h
  · simp [parseRecordBytes] at h
  · rw [List.cons_append, List.cons_append, List.cons_append, List.cons_append] at h ⊢
    rw [parseRecordBytes_concat] at h
    rw [parseRecordBytes_concat]
    by_cases hlen : pre.length + 1 = count + 1
    · rw [if_pos hlen] at h
      rw [if_pos hlen]
      by_cases hchk : c = twosComplement (count + ah + al + ty + pre.sum)
      · have h2 : ¬ c2 = twosComplement (count + ah + al + ty + pre.sum) := by
          rw [← hchk]; exact hne
        rw [if_neg h2]
      · rw [if_neg hchk] at h
        exact absurd h (by simp)
    · rw [if_neg hlen] at h
      exact absurd h (by simp)

/-- A line accepted by the parser begins with the start marker, decodes to
an even run of hexadecimal digits, and passes the byte-level parser. -/
theorem parseLine_ok_decompose (line : List Char) (r : HexRecord)
    (h : parseLine line = .ok r) :
    ∃ rest bytes, line = ':' :: rest ∧ decodeHexPairs rest = some bytes ∧
      parseRecordBytes bytes = .ok r := by
  match line with
  | [] => simp [parseLine] at h
  | c :: rest =>
    by_cases hc : c = ':'
    · subst hc
      cases hdec : decodeHexPairs rest with
      | some bytes =>
        refine ⟨rest, bytes, rfl, hdec, ?_⟩
        simpa [parseLine, hdec] using h
      | none => simp [parseLine, hdec] at h
    · have he : parseLine (c :: rest) = .error (.MalformedRecord .missingStartMarker) := by
        rw [parseLine.eq_def]
        split
        next r2 heq =>
          injection heq with h1 h2
          exact absurd h1 hc
        next => rfl
      rw [he] at h
      exact absurd h (by simp)

/-- C6: the parser accepts a record only if its stored checksum byte equals
the two's-complement of the sum of all preceding record bytes modulo 256,
and altering the checksum byte to any other value yields MalformedRecord
(checksum mismatch), never a partially accepted record. -/
theorem ezusb_c6_checksum :
    (∀ (bytes : List Nat) (r : HexRecord), parseRecordBytes bytes = .ok r →
      ∃ body chk, bytes = body ++ [chk] ∧ chk = twosComplement body.sum) ∧
    (∀ (body : List Nat) (c c2 : Nat) (r : HexRecord),
      parseRecordBytes (body ++ [c]) = .ok r → c2 ≠ c →
      parseRecordBytes (body ++ [c2]) = .error (.MalformedRecord .checksumMismatch)) ∧
    (∀ (line : List Char) (r : HexRecord), parseLine line = .ok r →
      ∃ rest bytes, line = ':' :: rest ∧ decodeHexPairs rest = some bytes ∧
        parseRecordBytes bytes = .ok r) :=
  ⟨parseRecordBytes_ok_checksum, parseRecordBytes_altered, parseLine_ok_decompose⟩

/-- Witness for C6: a concrete valid record is decomposed by the theorem,
and its checksum altered from 0x98 to 0x99 is rejected. -/
theorem ezusb_c6_checksum_witness :
    parseRecordBytes [2, 1, 0, 0, 170, 187, 153] =
      .error (.MalformedRecord .checksumMismatch) ∧
    ∃ body chk, ([2, 1, 0, 0, 170, 187, 152] : List Nat) = body ++ [chk] ∧
      chk = twosComplement body.sum := by
  constructor
  · exact ezusb_c6_checksum.2.1 [2, 1, 0, 0, 170, 187] 152 153
      ⟨.Data, 256, [170, 187]⟩ (by rfl) (by decide)
  · exact ezusb_c6_checksum.1 [2, 1, 0, 0, 170, 187, 152]
      ⟨.Data, 256, [170, 187]⟩ (by rfl)

/-- An image-load run that returns segments consumed an end-of-file line. -/
theorem loadLines_ok_hasEof :
    ∀ (lines : List (List Char)) (st : LoaderState) (segs : List Segment),
      loadLines lines st = .ok segs → ∃ line ∈ lines, isEofLine line = true := by
  intro lines
  induction lines with
  | nil => intro st segs h; simp [loadLines] at h
  | cons line rest ih =>
    intro st segs h
    cases hp : parseLine line with
    | error e =>
      cases e with
      | MalformedRecord w => simp [loadLines, hp] at h
    | ok r =>
      cases hrt : r.recordType with
      | EndOfFile =>
        exact ⟨line, List.mem_cons_self _ _, by simp [isEofLine, hp, hrt]⟩
      | Data =>
        simp only [loadLines, hp, hrt] at h
        obtain ⟨l, hl, he⟩ := ih _ _ h
        exact ⟨l, List.mem_cons_of_mem _ hl, he⟩
      | ExtendedSegment =>
        simp only [loadLines, hp, hrt] at h
        obtain ⟨l, hl, he⟩ := ih _ _ h
        exact ⟨l, List.mem_cons_of_mem _ hl, he⟩
      | ExtendedLinear =>
        simp only [loadLines, hp, hrt] at h
        obtain ⟨l, hl, he⟩ := ih _ _ h
        exact ⟨l, List.mem_cons_of_mem _ hl, he⟩
      | Other =>
        simp only [loadLines, hp, hrt] at h
        obtain ⟨l, hl, he⟩ := ih _ _ h
        exact ⟨l, List.mem_cons_of_mem _ hl, he⟩

/-- A stream of valid lines without an end-of-file record always exhausts
into TruncatedImage, from any loader state. -/
theorem loadLines_noEof_truncated :
    ∀ (lines : List (List Char)) (st : LoaderState),
      (∀ line ∈ lines, parsesOk line = true ∧ isEofLine line = false) →
      loadLines lines st = .error .TruncatedImage := by
  intro lines
  induction lines with
  | nil => intro st _; rfl
  | cons line rest ih =>
    intro st h
    obtain ⟨hok, heof⟩ := h line (List.mem_cons_self _ _)
    have hrest : ∀ l ∈ rest, parsesOk l = true ∧ isEofLine l = false :=
      fun l hl => h l (List.mem_cons_of_mem _ hl)
    cases hp : parseLine line with
    | error e => simp [parsesOk, hp] at hok
    | ok r =>
      have hne : r.recordType ≠ .EndOfFile := by
        simp [isEofLine, hp] at heof
        exact heof
      cases hrt : r.recordType with
      | EndOfFile => exact absurd hrt hne
      | Data => simp only [loadLines, hp, hrt]; exact ih _ hrest
      | ExtendedSegment => simp only [loadLines, hp, hrt]; exact ih _ hrest
      | ExtendedLinear => simp only [loadLines, hp, hrt]; exact ih _ hrest
      | Other => simp only [loadLines, hp, hrt]; exact ih _ hrest

/-- C7: an input stream that exhausts without an end-of-file record fails
with TruncatedImage no matter how many valid data records precede the end
of input, and a successful segment result implies an end-of-file line was
present. -/
theorem ezusb_c7_truncated :
    (∀ (lines : List (List Char)) (segs : List Segment), loadImage lines = .ok segs →
      ∃ line ∈ lines, isEofLine line = true) ∧
    (∀ lines : List (List Char),
      (∀ line ∈ lines, parsesOk line = true ∧ isEofLine line = false) →
      loadImage lines = .error .TruncatedImage) :=
  ⟨fun lines segs h => loadLines_ok_hasEof lines _ segs h,
   fun lines h => loadLines_noEof_truncated lines _ h⟩

/-- Witness for C7: one valid data line with no end-of-file record is
truncated; adding the end-of-file line yields segments, and the theorem
locates the end-of-file line. -/
theorem ezusb_c7_truncated_witness :
    loadImage [(":020100000102FA").toList] = .error .TruncatedImage ∧
    ∃ line ∈ [(":020100000102FA").toList, (":00000001FF").toList],
      isEofLine line = true := by
  constructor
  · exact ezusb_c7_truncated.2 [(":020100000102FA").toList] (by decide)
  · exact ezusb_c7_truncated.1 [(":020100000102FA").toList, (":00000001FF").toList]
      [⟨256, [1, 2]⟩] (by rfl)

/-- The split loop issues no write for an empty byte sequence. -/
theorem chunkifyGo_nil (csz : Nat) : ∀ fuel base, chunkifyGo csz fuel base [] = [] := by
  intro fuel base
  cases fuel <;> simp [chunkifyGo]

/-- The split loop does not depend on the fuel, as long as the fuel covers
the byte count. -/
theorem chunkifyGo_congr (csz : Nat) (hc : csz ≠ 0) :
    ∀ f g base (bytes : List Nat), bytes.length ≤ f → bytes.length ≤ g →
      chunkifyGo csz f base bytes = chunkifyGo csz g base bytes := by
  intro f
  induction f with
  | zero =>
    intro g base bytes hf hg
    have hb : bytes = [] := List.length_eq_zero.mp (Nat.le_zero.mp hf)
    subst hb
    rw [chunkifyGo_nil, chunkifyGo_nil]
  | succ f ih =>
    intro g base bytes hf hg
    cases g with
    | zero =>
      have hb : bytes = [] := List.length_eq_zero.mp (Nat.le_zero.mp hg)
      subst hb
      rw [chunkifyGo_nil, chunkifyGo_nil]
    | succ g =>
      by_cases hle : bytes.length ≤ csz
      · simp [chunkifyGo, hle]
      · simp only [chunkifyGo, if_neg hle]
        congr 1
        exact ih g (base + csz) (bytes.drop csz) (by simp; omega) (by simp; omega)

/-- Every chunk produced by the split loop is nonempty and no larger than
the chunk size. -/
theorem chunkifyGo_sizes (csz : Nat) (hc : csz ≠ 0) :
    ∀ fuel base (bytes : List Nat), bytes.length ≤ fuel →
      ∀ ch ∈ chunkifyGo csz fuel base bytes, ch.2.length ≤ csz ∧ ch.2 ≠ [] := by
  intro fuel
  induction fuel with
  | zero =>
    intro base bytes hf ch hch
    have hb : bytes = [] := List.length_eq_zero.mp (Nat.le_zero.mp hf)
    subst hb
    simp [chunkifyGo] at hch
  | succ fuel ih =>
    intro base bytes hf ch hch
    by_cases hle : bytes.length ≤ csz
    · by_cases hemp : bytes.isEmpty
      · simp [chunkifyGo, hle, hemp] at hch
      · simp only [chunkifyGo, if_pos hle, if_neg hemp] at hch
        simp at hch
        subst hch
        exact ⟨hle, by simpa [List.isEmpty_iff] using hemp⟩
    · simp only [chunkifyGo, if_neg hle] at hch
      simp at hch
      rcases hch with rfl | hch
      · refine ⟨?_, ?_⟩
        · show (bytes.take csz).length ≤ csz
          simp only [List.length_take]
          omega
        · show bytes.take csz ≠ []
          intro hnil
          have hlen2 : (bytes.take csz).length = csz := by
            simp only [List.length_take]
            omega
          rw [hnil] at hlen2
          simp at hlen2
          omega
      · exact ih (base + csz) (bytes.drop csz) (by simp; omega) ch hch

/-- The chunks produced by the split loop concatenate back to the original
byte sequence. -/
theorem chunkifyGo_join (csz : Nat) (hc : csz ≠ 0) :
    ∀ fuel base (bytes : List Nat), bytes.length ≤ fuel →
      ((chunkifyGo csz fuel base bytes).map Prod.snd).flatten = bytes := by
  intro fuel
  induction fuel with
  | zero =>
    intro base bytes hf
    have hb : bytes = [] := List.length_eq_zero.mp (Nat.le_zero.mp hf)
    subst hb
    simp [chunkifyGo]
  | succ fuel ih =>
    intro base bytes hf
    by_cases hle : bytes.length ≤ csz
    · by_cases hemp : bytes.isEmpty
      · have hb : bytes = [] := by simpa [List.isEmpty_iff] using hemp
        subst hb
        simp [chunkifyGo]
      · simp [chunkifyGo, hle, hemp]
    · simp only [chunkifyGo, if_neg hle]
      simp only [List.map_cons, List.flatten_cons]
      rw [ih (base + csz) (bytes.drop csz) (by simp; omega)]
      exact List.take_append_drop csz bytes

/-- The chunks produced by the split loop carry consecutive addresses. -/
theorem chunkifyGo_consecutive (csz : Nat) (hc : csz ≠ 0) :
    ∀ fuel base (bytes : List Nat), bytes.length ≤ fuel →
      chunksConsecutive base (chunkifyGo csz fuel base bytes) := by
  intro fuel
  induction fuel with
  | zero =>
    intro base bytes hf
    have hb : bytes = [] := List.length_eq_zero.mp (Nat.le_zero.mp hf)
    subst hb
    simp [chunkifyGo, chunksConsecutive]
  | succ fuel ih =>
    intro base bytes hf
    by_cases hle : bytes.length ≤ csz
    · by_cases hemp : bytes.isEmpty
      · simp [chunkifyGo, hle, hemp, chunksConsecutive]
      · simp [chunkifyGo, hle, hemp, chunksConsecutive]
    · simp only [chunkifyGo, if_neg hle]
      refine ⟨rfl, ?_⟩
      have htk : (bytes.take csz).length = csz := by simp; omega
      rw [htk]
      exact ih (base + csz) (bytes.drop csz) (by simp; omega)

/-- A nonempty byte sequence within the chunk size goes out as one write. -/
theorem chunkify_small (csz base : Nat) (bytes : List Nat) (hc : csz ≠ 0)
    (hle : bytes.length ≤ csz) (hne : bytes ≠ []) :
    chunkify csz base bytes = [(base, bytes)] := by
  unfold chunkify
  rw [if_neg hc]
  cases hf : bytes.length with
  | zero => exact absurd (List.length_eq_zero.mp hf) hne
  | succ n =>
    simp [chunkifyGo, hle, List.isEmpty_iff, hne]

/-- A byte sequence larger than the chunk size is split into a first chunk
of exactly the chunk size followed by the chunks of the remainder. -/
theorem chunkify_step (csz base : Nat) (bytes : List Nat) (hc : csz ≠ 0)
    (hgt : csz < bytes.length) :
    chunkify csz base bytes =
      (base, bytes.take csz) :: chunkify csz (base + csz) (bytes.drop csz) := by
  unfold chunkify
  rw [if_neg hc, if_neg hc]
  cases hf : bytes.length with
  | zero => omega
  | succ n =>
    simp only [chunkifyGo, if_neg (by omega : ¬ bytes.length ≤ csz)]
    congr 1
    exact chunkifyGo_congr csz hc n (bytes.drop csz).length (base + csz) (bytes.drop csz)
      (by simp; omega) le_rfl

/-- A 130-byte sequence at chunk size 64 splits into exactly three chunks
of sizes 64, 64 and 2 at increasing consecutive addresses. -/
theorem chunkify_130 (base : Nat) (bytes : List Nat) (hlen : bytes.length = 130) :
    (chunkify 64 base bytes).map (fun ch => ch.2.length) = [64, 64, 2] ∧
    (chunkify 64 base bytes).map Prod.fst = [base, base + 64, base + 128] := by
  have hd1 : (bytes.drop 64).length = 66 := by simp [hlen]
  have hd2 : ((bytes.drop 64).drop 64).length = 2 := by simp [hlen]
  have h1 := chunkify_step 64 base bytes (by omega) (by omega)
  have h2 := chunkify_step 64 (base + 64) (bytes.drop 64) (by omega) (by omega)
  have h3 := chunkify_small 64 (base + 64 + 64) ((bytes.drop 64).drop 64) (by omega)
    (by omega) (by intro hnil; rw [hnil] at hd2; simp at hd2)
  rw [h1, h2, h3]
  constructor
  · simp [hlen, hd1]
  · simp

/-- With an all-success transport, the chunk loop issues exactly one write
per chunk, in order. -/
theorem issueChunks_success (transport : Nat → Option Nat) (mk : Nat → List Nat → EngineOp)
    (htr : ∀ n, transport n = none) :
    ∀ (chunks : List (Nat × List Nat)) (idx : Nat),
      issueChunks transport mk idx chunks =
        (chunks.map (fun ch => mk ch.1 ch.2), none, idx + chunks.length) := by
  intro chunks
  induction chunks with
  | nil => intro idx; simp [issueChunks]
  | cons ch rest ih =>
    intro idx
    obtain ⟨a, d⟩ := ch
    simp [issueChunks, htr idx, ih (idx + 1)]
    omega

/-- A RAM pass over an all-success transport issues the reset-assert write,
one write per chunk, and the reset-release write, ending in Done. -/
theorem runPass_ram_success (profile : DeviceProfile) (segs : List Segment)
    (transport : Nat → Option Nat) (htr : ∀ n, transport n = none) :
    runPass profile segs .Ram transport =
      ⟨.ok (), EngineOp.resetAssert profile.resetRegisterAddress profile.resetAssertValue ::
        ((segmentChunks profile.chunkSize segs).map (fun ch => .chunkWrite ch.1 ch.2) ++
          [EngineOp.resetRelease profile.resetRegisterAddress profile.resetReleaseValue]),
        .Done⟩ := by
  simp [runPass, htr 0, runTransfer, issueChunks_success transport _ htr, htr]

/-- The chunk loop never issues a reset-release write. -/
theorem releaseCount_issueChunks (transport : Nat → Option Nat) :
    ∀ (chunks : List (Nat × List Nat)) (idx : Nat),
      releaseCount (issueChunks transport EngineOp.chunkWrite idx chunks).1 = 0 := by
  intro chunks
  induction chunks with
  | nil => intro idx; simp [issueChunks, releaseCount]
  | cons ch rest ih =>
    intro idx
    obtain ⟨a, d⟩ := ch
    cases htr : transport idx with
    | none =>
      simp only [issueChunks, htr]
      simp [releaseCount, List.filter_cons, isRelease]
      have := ih (idx + 1)
      simpa [releaseCount] using this
    | some c =>
      simp only [issueChunks, htr]
      simp [releaseCount, List.filter_cons, isRelease]

/-- C4: when a RAM pass has entered Transferring (the reset-assert write
succeeded) and some chunk transfer fails, exactly one reset-release write is
still attempted, the terminal state is Failed, and the surfaced error is the
original transfer failure — for every transport, including ones whose
release attempt also fails. -/
theorem ezusb_c4_midpass_failure (profile : DeviceProfile) (segs : List Segment)
    (transport : Nat → Option Nat) (c : Nat)
    (h0 : transport 0 = none)
    (hf : (issueChunks transport EngineOp.chunkWrite 1
            (segmentChunks profile.chunkSize segs)).2.1 = some c) :
    runPass profile segs .Ram transport =
      ⟨.error (.TransportError c),
        EngineOp.resetAssert profile.resetRegisterAddress profile.resetAssertValue ::
          ((issueChunks transport EngineOp.chunkWrite 1
              (segmentChunks profile.chunkSize segs)).1 ++
            [EngineOp.resetRelease profile.resetRegisterAddress profile.resetReleaseValue]),
        .Failed⟩ ∧
    releaseCount (runPass profile segs .Ram transport).trace = 1 ∧
    (runPass profile segs .Ram transport).final = .Failed ∧
    (runPass profile segs .Ram transport).status = .error (.TransportError c) := by
  have hmain : runPass profile segs .Ram transport =
      ⟨.error (.TransportError c),
        EngineOp.resetAssert profile.resetRegisterAddress profile.resetAssertValue ::
          ((issueChunks transport EngineOp.chunkWrite 1
              (segmentChunks profile.chunkSize segs)).1 ++
            [EngineOp.resetRelease profile.resetRegisterAddress profile.resetReleaseValue]),
        .Failed⟩ := by
    simp [runPass, h0, runTransfer, hf]
  refine ⟨hmain, ?_, by rw [hmain], by rw [hmain]⟩
  rw [hmain]
  have h1 := releaseCount_issueChunks transport (segmentChunks profile.chunkSize segs) 1
  simp only [releaseCount] at h1
  simp [releaseCount, List.filter_cons, List.filter_append, isRelease, h1]

set_option maxRecDepth 8000 in
/-- Witness for C4: chunk 2 of 3 fails with transport code 7 and the release
attempt itself fails with code 9; exactly one release write is attempted,
the terminal state is Failed, and the surfaced error is code 7. -/
theorem ezusb_c4_midpass_failure_witness :
    runPass ⟨64, 0xE600, 1, 0, true, true⟩ [⟨256, List.replicate 130 171⟩] .Ram
        (fun n => if n = 2 then some 7 else if n = 3 then some 9 else none) =
      ⟨.error (.TransportError 7),
        EngineOp.resetAssert 0xE600 1 ::
          ((issueChunks (fun n => if n = 2 then some 7 else if n = 3 then some 9 else none)
              EngineOp.chunkWrite 1 (segmentChunks 64 [⟨256, List.replicate 130 171⟩])).1 ++
            [EngineOp.resetRelease 0xE600 0]),
        .Failed⟩ ∧
    releaseCount (runPass ⟨64, 0xE600, 1, 0, true, true⟩
      [⟨256, List.replicate 130 171⟩] .Ram
      (fun n => if n = 2 then some 7 else if n = 3 then some 9 else none)).trace = 1 ∧
    (runPass ⟨64, 0xE600, 1, 0, true, true⟩ [⟨256, List.replicate 130 171⟩] .Ram
      (fun n => if n = 2 then some 7 else if n = 3 then some 9 else none)).final = .Failed ∧
    (runPass ⟨64, 0xE600, 1, 0, true, true⟩ [⟨256, List.replicate 130 171⟩] .Ram
      (fun n => if n = 2 then some 7 else if n = 3 then some 9 else none)).status =
      .error (.TransportError 7) :=
  ezusb_c4_midpass_failure ⟨64, 0xE600, 1, 0, true, true⟩ [⟨256, List.replicate 130 171⟩]
    (fun n => if n = 2 then some 7 else if n = 3 then some 9 else none) 7 rfl (by decide)

/-- Every chunk of the split is nonempty and within the chunk size. -/
theorem chunkify_sizes (csz base : Nat) (bytes : List Nat) (hc : csz ≠ 0) :
    ∀ ch ∈ chunkify csz base bytes, ch.2.length ≤ csz ∧ ch.2 ≠ [] := by
  intro ch hch
  rw [chunkify, if_neg hc] at hch
  exact chunkifyGo_sizes csz hc bytes.length base bytes le_rfl ch hch

/-- The chunks of the split concatenate back to the byte sequence. -/
theorem chunkify_flatten (csz base : Nat) (bytes : List Nat) :
    ((chunkify csz base bytes).map Prod.snd).flatten = bytes := by
  by_cases hc : csz = 0
  · subst hc
    by_cases hb : bytes.isEmpty
    · have hbn : bytes = [] := by simpa [List.isEmpty_iff] using hb
      simp [chunkify, hbn]
    · simp [chunkify, hb]
  · simp only [chunkify, if_neg hc]
    exact chunkifyGo_join csz hc bytes.length base bytes le_rfl

/-- The chunks of the split carry consecutive addresses from the base. -/
theorem chunkify_consecutive (csz base : Nat) (bytes : List Nat) :
    chunksConsecutive base (chunkify csz base bytes) := by
  by_cases hc : csz = 0
  · subst hc
    by_cases hb : bytes.isEmpty
    · simp [chunkify, hb, chunksConsecutive]
    · simp [chunkify, hb, chunksConsecutive]
  · simp only [chunkify, if_neg hc]
    exact chunkifyGo_consecutive csz hc bytes.length base bytes le_rfl

/-- C5: every segment is split into consecutive nonempty chunks no larger
than the chunk size whose concatenation is the segment (the whole segment in
one write when the chunk size is 0); a RAM pass issues one control write per
chunk in order between the reset writes; and a 130-byte segment at chunk
size 64 goes out as exactly 3 writes of sizes 64, 64, 2 at increasing
addresses. -/
theorem ezusb_c5_chunking :
    (∀ (csz base : Nat) (bytes : List Nat), csz ≠ 0 →
      ∀ ch ∈ chunkify csz base bytes, ch.2.length ≤ csz ∧ ch.2 ≠ []) ∧
    (∀ (csz base : Nat) (bytes : List Nat),
      ((chunkify csz base bytes).map Prod.snd).flatten = bytes) ∧
    (∀ (csz base : Nat) (bytes : List Nat),
      chunksConsecutive base (chunkify csz base bytes)) ∧
    (∀ (base : Nat) (bytes : List Nat),
      chunkify 0 base bytes = if bytes.isEmpty then [] else [(base, bytes)]) ∧
    (∀ (profile : DeviceProfile) (segs : List Segment) (transport : Nat → Option Nat),
      (∀ n, transport n = none) →
      runPass profile segs .Ram transport =
        ⟨.ok (), EngineOp.resetAssert profile.resetRegisterAddress profile.resetAssertValue ::
          ((segmentChunks profile.chunkSize segs).map (fun ch => .chunkWrite ch.1 ch.2) ++
            [EngineOp.resetRelease profile.resetRegisterAddress profile.resetReleaseValue]),
          .Done⟩) ∧
    (∀ (base : Nat) (bytes : List Nat), bytes.length = 130 →
      (chunkify 64 base bytes).map (fun ch => ch.2.length) = [64, 64, 2] ∧
      (chunkify 64 base bytes).map Prod.fst = [base, base + 64, base + 128]) :=
  ⟨fun csz base bytes hc => chunkify_sizes csz base bytes hc,
   chunkify_flatten,
   chunkify_consecutive,
   fun base bytes => by simp [chunkify],
   runPass_ram_success,
   chunkify_130⟩

/-- Witness for C5: the 130-byte split at chunk size 64 computed on a
concrete segment. -/
theorem ezusb_c5_chunking_witness :
    (chunkify 64 256 (List.replicate 130 171)).map (fun ch => ch.2.length) = [64, 64, 2] ∧
    (chunkify 64 256 (List.replicate 130 171)).map Prod.fst = [256, 320, 384] := by
  have h := ezusb_c5_chunking.2.2.2.2.2 256 (List.replicate 130 171) (by simp)
  exact ⟨h.1, h.2.trans (by norm_num)⟩

end Fxload
